import Mathlib

/-!
Verification of the build-orchestration core of the opencompiler service.

The JavaScript sources are shallowly embedded: JS strings that are only
scanned character by character are modelled as `List Char`, file maps and
directory listings as association lists, the Node event loop's
interleaving of request handlers as an explicit small-step scheduler, and
the external collaborators (Docker sandbox, AI advisor, filesystem
listings) as oracle functions supplied to the orchestrator.  Each
definition is a transcription of the function of the same name in the
sources (`smartBuild.js`, `buildManager.js`, `docker.js`, the agent
router and the service config).
-/

namespace OpenCompiler

/-! ## Path model (buildManager.js createProjectFromFiles)

JS strings are modelled as `List Char` so that the character scans of
Node's `path.posix.normalize` and of the sanitizing regex replace can be
transcribed as structural recursions. -/

abbrev JStr := List Char

/-- Split a character list on the slash separator, the grouping that
Node's posix path code performs while scanning a path. Always returns at
least one (possibly empty) group. -/
def splitSlash : JStr → List JStr
  | [] => [[]]
  | c :: rest =>
    let r := splitSlash rest
    if c = '/' then [] :: r
    else
      match r with
      | [] => [[c]]
      | g :: gs => (c :: g) :: gs

/-- Join groups back with slash separators (inverse of `splitSlash` on
slash-free nonempty group lists). -/
def joinSlash : List JStr → JStr
  | [] => []
  | [g] => g
  | g :: g2 :: gs => g ++ '/' :: joinSlash (g2 :: gs)

/-- The two-dot parent-directory segment. -/
def dd : JStr := ['.', '.']

/-- Segments of a path as Node's `normalizeString` sees them: split on
slash, dropping empty segments and single-dot segments. -/
def pathSegsL (p : JStr) : List JStr :=
  (splitSlash p).filter (fun s => decide (s ≠ [] ∧ s ≠ ['.']))

/-- One step of Node `path.posix.normalize`'s segment stack (head of the
list is the most recently pushed segment).  A `..` pops a preceding
normal segment, is silently dropped at the root of an absolute path, and
is accumulated at the front of a relative path. -/
def normStep (isAbs : Bool) (stack : List JStr) (seg : JStr) : List JStr :=
  if seg = dd then
    match stack with
    | [] => if isAbs then [] else [dd]
    | top :: rest => if top = dd then dd :: top :: rest else rest
  else seg :: stack

/-- Fold `normStep` over the segments of a path. -/
def normStack (isAbs : Bool) (segs : List JStr) : List JStr :=
  segs.foldl (normStep isAbs) []

/-- Node `path.posix.normalize` transcribed for the Linux deployment:
collapses duplicate separators, resolves `.` and `..`, keeps a trailing
slash, and returns `.` (resp. `/`) for an empty relative (resp.
absolute) result. -/
def pathNormalizeL (p : JStr) : JStr :=
  if p = [] then ['.']
  else
    let isAbs := p.head? = some '/'
    let trailing := p.getLast? = some '/'
    let body := joinSlash (normStack isAbs (pathSegsL p)).reverse
    if body = [] then
      if isAbs then ['/'] else if trailing then ['.', '/'] else ['.']
    else
      let body2 := if trailing then body ++ ['/'] else body
      if isAbs then '/' :: body2 else body2

/-- The sanitizer's anchored replace of the regex `(\.\.(\/|\\|$))+`:
repeatedly remove a leading `../` or `..\`, and a bare trailing `..`. -/
def stripLeadingDotDot : JStr → JStr
  | '.' :: '.' :: '/' :: rest => stripLeadingDotDot rest
  | '.' :: '.' :: '\\' :: rest => stripLeadingDotDot rest
  | ['.', '.'] => []
  | s => s

/-- Path sanitization performed by `createProjectFromFiles` for each
caller-supplied path: normalize, strip leading parent-directory
segments, then reject (`none`, modelling the thrown `Invalid file path`
error) any result that is absolute or contains a NUL character. -/
def sanitizeProjectPathL (p : JStr) : Option JStr :=
  let sp := stripLeadingDotDot (pathNormalizeL p)
  if sp.head? = some '/' ∨ (Char.ofNat 0) ∈ sp then none else some sp

/-- The file-writing loop of `createProjectFromFiles`: entries are
processed in order; each sanitized path is written (first component of
the result), and the first path whose sanitization fails aborts the
loop with an error (second component) before that file and any later
file is written. -/
def createProjectFromFilesL (files : List (JStr × String)) :
    List (JStr × String) × Option JStr :=
  match files with
  | [] => ([], none)
  | (fp, c) :: rest =>
    match sanitizeProjectPathL fp with
    | none => ([], some fp)
    | some sp =>
      let r := createProjectFromFilesL rest
      ((sp, c) :: r.1, r.2)

/-- Resolution of a relative path against a directory given as a segment
stack, popping one directory per `..` segment as a filesystem would.
Used only to state the containment property. -/
def resolveSegs (base : List JStr) (rel : JStr) : List JStr :=
  (pathSegsL rel).foldl
    (fun acc seg => if seg = dd then acc.dropLast else acc ++ [seg]) base

/-- Segments that `normStep` pushes in its else branch: nonempty, not a
single dot, not `..`, and slash-free. -/
def GoodSeg (g : JStr) : Prop := g ≠ [] ∧ g ≠ ['.'] ∧ g ≠ dd ∧ '/' ∉ g

/-- Shape invariant of the `normStack` stack: a block of ordinary
segments sitting on top of a block of `..` segments (head of the list is
the top of the stack). -/
def GoodStack (st : List JStr) : Prop :=
  ∃ ns ds, st = ns ++ ds ∧ (∀ g ∈ ns, GoodSeg g) ∧ (∀ g ∈ ds, g = dd)

/-- No group of the list is the parent-directory segment. -/
abbrev NoDD (gs : List JStr) : Prop := ∀ g ∈ gs, g ≠ dd

/-- Shape invariant maintained by `stripLeadingDotDot`: the slash-split
groups are a run of `..` groups followed by groups that are not `..`. -/
def StripInv (s : JStr) : Prop :=
  ∃ k gs, splitSlash s = List.replicate k dd ++ gs ∧ NoDD gs

/-! ## Fix safety model (smartBuild.js applySafeFixes, validateRsFixSafety)

A compiled-source file's text is abstracted to exactly the measurements
that `validateRsFixSafety` extracts from it with its `countPattern`
regexes: the number of non-overlapping `fn`, `struct`, `enum` and `impl`
matches and the `'\n'`-split line count.  The comparison logic below is
transcribed branch for branch from the source. -/

/-- Construct counts and line count of a compiled-source file, as
measured by validateRsFixSafety. -/
structure RsContent where
  fns : Nat
  structs : Nat
  enums : Nat
  impls : Nat
  lines : Nat
deriving DecidableEq, Repr

/-- Which guard of validateRsFixSafety fired (tags for the source's
human-readable reason strings). -/
inductive SafetyReason where
  | functionsReduced
  | structsReduced
  | enumsReduced
  | implsReduced
  | codeShrunk
deriving DecidableEq, Repr

/-- Result record of validateRsFixSafety. -/
structure SafetyResult where
  safe : Bool
  reason : Option SafetyReason
deriving DecidableEq, Repr

/-- Transcription of `validateRsFixSafety`.  `existing = none` models the
catch branch taken when the existing file cannot be read.  The source
compares `newLines < existingLines * 0.7` in IEEE doubles; because the
double nearest 0.7 is 0.7 - 0.2 * 2⁻⁵², that comparison agrees with the
exact rational comparison `10 * newLines < 7 * existingLines` for every
line count below 2⁴⁵, which is what the model uses. -/
def validateRsFixSafety (existing : Option RsContent) (proposed : RsContent) :
    SafetyResult :=
  match existing with
  | none => { safe := true, reason := none }
  | some ex =>
    if proposed.fns < ex.fns then
      { safe := false, reason := some SafetyReason.functionsReduced }
    else if proposed.structs < ex.structs then
      { safe := false, reason := some SafetyReason.structsReduced }
    else if proposed.enums < ex.enums then
      { safe := false, reason := some SafetyReason.enumsReduced }
    else if proposed.impls < ex.impls then
      { safe := false, reason := some SafetyReason.implsReduced }
    else if 10 < ex.lines ∧ 10 * proposed.lines < 7 * ex.lines then
      { safe := false, reason := some SafetyReason.codeShrunk }
    else { safe := true, reason := none }

/-- Index of the last occurrence of a character in a character list. -/
def lastIdxOf (c : Char) : JStr → Option Nat
  | [] => none
  | a :: rest =>
    match lastIdxOf c rest with
    | some i => some (i + 1)
    | none => if a = c then some 0 else none

/-- Remove trailing slash characters (Node's extname ignores them). -/
def dropTrailingSlashes (l : JStr) : JStr :=
  (l.reverse.dropWhile (fun c => c = '/')).reverse

/-- Node `path.posix.extname`: the substring of the final path component
from its last dot, provided that dot is not the component's first
character; `..` has no extension. -/
def extname (p : String) : String :=
  let base := (splitSlash (dropTrailingSlashes p.data)).getLastD []
  if base = dd then ""
  else
    match lastIdxOf '.' base with
    | some i => if 0 < i then String.mk (base.drop i) else ""
    | none => ""

/-- The config-file extension allow-list of applySafeFixes. -/
def isConfigExt (ext : String) : Bool :=
  ext == ".toml" || ext == ".json" || ext == ".lock"

/-- A fix proposal from the AI Repair Advisor.  `content = none` models a
JS-falsy content field (absent or the empty string); the source object
also carries a rationale string that no check reads. -/
structure Fix where
  action : String
  path : String
  content : Option RsContent
deriving DecidableEq, Repr

/-- The project tree, as the association of file paths to (abstracted)
contents. -/
abbrev ProjFS := List (String × RsContent)

/-- Read a file (fs.readFile / fs.access succeed iff the path is bound). -/
def fsLookup (fs : ProjFS) (p : String) : Option RsContent :=
  (fs.find? (fun e => e.1 == p)).map (fun e => e.2)

/-- Write a file (fs.writeFile, overwriting any previous binding). -/
def fsWrite (fs : ProjFS) (p : String) (c : RsContent) : ProjFS :=
  (p, c) :: fs.filter (fun e => e.1 != p)

/-- Tags for the rejection reason strings of applySafeFixes. -/
inductive RejectReason where
  | missingPathOrContent
  | configOnlyPhase
  | cannotCreateRs
  | cannotDeleteRs
  | unsafeRs (r : Option SafetyReason)
  | rsForbiddenIterationZero
deriving DecidableEq, Repr

/-- Per-fix outcome of the applySafeFixes loop. -/
inductive FixOutcome where
  | applied (f : Fix)
  | rejected (f : Fix) (r : RejectReason)
deriving DecidableEq, Repr

/-- The iteration ≥ 1 `.rs` checks of applySafeFixes: a create of an
existing path is coerced to an update (the source mutates fix.action), a
create of a missing path and any delete are rejected, and the surviving
fix must pass the regression guard. -/
def rsChecks (fs : ProjFS) (fix : Fix) (c : RsContent) :
    Except RejectReason Fix :=
  let step1 : Except RejectReason Fix :=
    if fix.action == "create" then
      if (fsLookup fs fix.path).isSome then
        Except.ok { fix with action := "update" }
      else Except.error RejectReason.cannotCreateRs
    else Except.ok fix
  match step1 with
  | Except.error r => Except.error r
  | Except.ok f2 =>
    if f2.action == "delete" then Except.error RejectReason.cannotDeleteRs
    else
      let v := validateRsFixSafety (fsLookup fs f2.path) c
      if v.safe then Except.ok f2
      else Except.error (RejectReason.unsafeRs v.reason)

/-- One iteration of the `for (const fix of fixes)` loop of
applySafeFixes, transcribed branch for branch; the final fs.writeFile is
modelled as always succeeding. -/
def processFix (iteration : Nat) (fs : ProjFS) (fix : Fix) :
    FixOutcome × ProjFS :=
  match fix.content with
  | none => (FixOutcome.rejected fix RejectReason.missingPathOrContent, fs)
  | some c =>
    if fix.path = "" then
      (FixOutcome.rejected fix RejectReason.missingPathOrContent, fs)
    else
      let ext := extname fix.path
      let isRsFile := ext == ".rs"
      if iteration == 0 && !(isConfigExt ext) then
        (FixOutcome.rejected fix RejectReason.configOnlyPhase, fs)
      else
        match (if 0 < iteration && isRsFile then rsChecks fs fix c
               else Except.ok fix) with
        | Except.error r => (FixOutcome.rejected fix r, fs)
        | Except.ok f2 =>
          if iteration == 0 && isRsFile then
            (FixOutcome.rejected f2 RejectReason.rsForbiddenIterationZero, fs)
          else
            (FixOutcome.applied f2, fsWrite fs f2.path c)

/-- Result of applySafeFixes: the applied and rejected lists and the
project tree after the writes. -/
structure SafeFixResult where
  applied : List Fix
  rejected : List (Fix × RejectReason)
  fs : ProjFS
deriving DecidableEq, Repr

/-- The applySafeFixes loop over a batch of advisor proposals, threading
the project tree (an applied fix is visible to the checks on later fixes
of the same batch, as with the source's filesystem writes). -/
def applySafeFixes (iteration : Nat) (fs : ProjFS) (fixes : List Fix) :
    SafeFixResult :=
  match fixes with
  | [] => { applied := [], rejected := [], fs := fs }
  | f :: rest =>
    match processFix iteration fs f with
    | (FixOutcome.applied f2, fs2) =>
      let r := applySafeFixes iteration fs2 rest
      { applied := f2 :: r.applied, rejected := r.rejected, fs := r.fs }
    | (FixOutcome.rejected f2 reason, fs2) =>
      let r := applySafeFixes iteration fs2 rest
      { applied := r.applied, rejected := (f2, reason) :: r.rejected, fs := r.fs }

/-! ## Sandbox container configuration (docker.js executeAnchorBuild and
the `docker` section of the service config) -/

/-- The `docker` section of the service configuration. -/
structure DockerConfig where
  memory : Nat
  memorySwap : Nat
  cpus : Nat
  networkDisabled : Bool
  readonlyRootfs : Bool
  autoRemove : Bool
deriving DecidableEq, Repr

/-- The shipped configuration values of config.js: 2 GB memory, no swap
headroom, 2 cpus, and network left enabled so cargo can fetch
dependencies. -/
def configDocker : DockerConfig :=
  { memory := 2 * 1024 * 1024 * 1024
    memorySwap := 2 * 1024 * 1024 * 1024
    cpus := 2
    networkDisabled := false
    readonlyRootfs := false
    autoRemove := true }

/-- The HostConfig fields that executeAnchorBuild constructs for the
build container. -/
structure HostConfig where
  networkMode : String
  memory : Nat
  memorySwap : Nat
  nanoCpus : Nat
  readonlyRootfs : Bool
  capDropAll : Bool
deriving DecidableEq, Repr

/-- Transcription of the HostConfig construction in executeAnchorBuild,
in particular `NetworkMode: config.docker.networkDisabled ? 'none' :
'default'`. -/
def buildHostConfig (cfg : DockerConfig) : HostConfig :=
  { networkMode := if cfg.networkDisabled then "none" else "default"
    memory := cfg.memory
    memorySwap := cfg.memorySwap
    nanoCpus := cfg.cpus * 1000000000
    readonlyRootfs := cfg.readonlyRootfs
    capDropAll := true }

/-! ## Keypair extraction and purge (agent router one-shot build route) -/

/-- endsWith on the underlying character lists (kernel-computable). -/
def strEndsWith (s suffix : String) : Bool :=
  List.isSuffixOf suffix.data s.data

/-- A file of the build output's target/deploy directory: its name and
whether its bytes parse as a keypair (JSON.parse followed by
Keypair.fromSecretKey succeeding), with the parsed fields abstracted. -/
structure DeployFile where
  filename : String
  parses : Bool
  pubkey : String
  secret : List Nat
deriving DecidableEq, Repr

/-- The credential-file naming convention extractKeypairs scans for. -/
def isKeypairFilename (name : String) : Bool :=
  strEndsWith name "-keypair.json"

/-- A secret record of the completion payload. -/
structure SecretRecord where
  name : String
  filename : String
  pubkey : String
  secret : List Nat
deriving DecidableEq, Repr

/-- Fuel-indexed removal of every occurrence of a pattern (the JS
`file.replace('-keypair.json', '')`); the fuel starts at the list length
so it never runs out. -/
def removeOccurAux (pat : JStr) : Nat → JStr → JStr
  | _, [] => []
  | 0, l => l
  | fuel + 1, c :: rest =>
    if pat.isPrefixOf (c :: rest) then
      removeOccurAux pat fuel (rest.drop (pat.length - 1))
    else c :: removeOccurAux pat fuel rest

/-- Remove every occurrence of a (nonempty) pattern from a list. -/
def removeOccurrences (pat : JStr) (l : JStr) : JStr :=
  removeOccurAux pat l.length l

/-- extractKeypairs: list target/deploy (a `none` listing models the
readdir failure when the directory does not exist: no keypairs), keep
the files named `*-keypair.json` whose contents parse, and build one
secret record per such file; a file that fails to parse is skipped with
a warning. -/
def extractKeypairs (deployDir : Option (List DeployFile)) :
    List SecretRecord :=
  match deployDir with
  | none => []
  | some files =>
    (files.filter (fun f => isKeypairFilename f.filename && f.parses)).map
      (fun f =>
        { name := String.mk
            (removeOccurrences "-keypair.json".data f.filename.data)
          filename := f.filename
          pubkey := f.pubkey
          secret := f.secret })

/-- deleteKeypairFiles: unlink each record's backing file from the
deploy directory (a file that is already gone is ignored). -/
def deleteKeypairFiles (deployDir : List DeployFile)
    (records : List SecretRecord) : List DeployFile :=
  deployDir.filter
    (fun f => !(records.any (fun r => r.filename == f.filename)))

/-- One event of the response tail of the one-shot build route. -/
inductive RespEvent where
  | send (records : List SecretRecord)
  | unlink (filename : String)
deriving DecidableEq, Repr

/-- The success tail of the one-shot build route: extract the keypairs,
send the response embedding them, and only then purge the backing files.
Returns the emitted event trace (in program order) and the deploy
directory after the purge. -/
def buildSuccessTail (deployDir : List DeployFile) :
    List RespEvent × List DeployFile :=
  let kps := extractKeypairs (some deployDir)
  (RespEvent.send kps :: kps.map (fun k => RespEvent.unlink k.filename),
   deleteKeypairFiles deployDir kps)

/-! ## Build-log error detection (smartBuild.js detectBuildErrorsInLogs
and verifyBuildArtifacts) -/

/-- Collected stdout and stderr of one sandbox run. -/
structure LogsPair where
  stdout : String
  stderr : String
deriving DecidableEq, Repr

/-- The combined text detectBuildErrorsInLogs scans:
`stdout + '\n' + stderr`. -/
def combinedLog (l : LogsPair) : String := l.stdout ++ "\n" ++ l.stderr

/-- Scan every suffix of a character list with a predicate (regex search
without anchors). -/
def scanAny (p : JStr → Bool) : JStr → Bool
  | [] => p []
  | c :: rest => p (c :: rest) || scanAny p rest

/-- Substring test via the suffix scan. -/
def strContains (s pat : String) : Bool :=
  scanAny (fun l => pat.data.isPrefixOf l) s.data

/-- Match of `error[E<digits>]` at the head of a character list (the
regex `error\[E\d+\]`). -/
def errCodeAt : JStr → Bool
  | 'e' :: 'r' :: 'r' :: 'o' :: 'r' :: '[' :: 'E' :: rest =>
    let ds := rest.takeWhile Char.isDigit
    !ds.isEmpty && decide ((rest.drop ds.length).head? = some ']')
  | _ => false

/-- The regex `error\[E\d+\]` anywhere in the text. -/
def hasRustcErrorCode (s : String) : Bool := scanAny errCodeAt s.data

/-- Split a character list on a separator character. -/
def splitOnChar (sep : Char) : JStr → List JStr
  | [] => [[]]
  | c :: rest =>
    let r := splitOnChar sep rest
    if c = sep then [] :: r
    else
      match r with
      | [] => [[c]]
      | g :: gs => (c :: g) :: gs

/-- The multiline regex `^error:.*aborting due to`: some line starts
with `error:` and later on that same line contains `aborting due to`. -/
def hasAbortingLine (s : String) : Bool :=
  (splitOnChar (Char.ofNat 10) s.data).any
    (fun ln => "error:".data.isPrefixOf ln &&
      scanAny (fun l => "aborting due to".data.isPrefixOf l) ln)

/-- Match of `cargo<any char>build` at the head of a character list. -/
def cargoBuildAt : JStr → Bool
  | 'c' :: 'a' :: 'r' :: 'g' :: 'o' :: _ :: 'b' :: 'u' :: 'i' :: 'l' :: 'd' :: _ =>
    true
  | _ => false

/-- The case-insensitive regex `ERROR.*cargo.build`: on some line of the
lowercased text, `error` followed later on the same line by `cargo`, one
arbitrary character and `build`. -/
def hasCargoBuildError (s : String) : Bool :=
  (splitOnChar (Char.ofNat 10) (s.data.map Char.toLower)).any
    (fun ln => scanAny
      (fun l => "error".data.isPrefixOf l && scanAny cargoBuildAt (l.drop 5)) ln)

/-- An apostrophe, built from its code point. -/
def apos : String := String.singleton (Char.ofNat 39)

/-- The package-metadata failure message pattern. -/
def pkgMetadataMsg : String := "Failed to obtain package metadata"

/-- The missing-library message pattern. -/
def cantFindLibraryMsg : String := "can" ++ apos ++ "t find library"

/-- Transcription of detectBuildErrorsInLogs: the five "error despite
success" patterns over the combined log, in source order. -/
def detectBuildErrorsInLogs (logs : LogsPair) : Bool :=
  let combined := combinedLog logs
  hasRustcErrorCode combined || hasAbortingLine combined ||
  hasCargoBuildError combined || strContains combined pkgMetadataMsg ||
  strContains combined cantFindLibraryMsg

/-- verifyBuildArtifacts: the target/deploy listing (none models the
readdir failure when the directory is missing) must contain a `.so`
file. -/
def verifyBuildArtifacts (deployListing : Option (List String)) : Bool :=
  match deployListing with
  | none => false
  | some files => files.any (fun f => strEndsWith f ".so")

/-- Result shape of executeAnchorBuild as smartBuild consumes it:
success is exit code zero, exitCode is absent when the sandbox itself
failed to run, and error carries a failure message. -/
structure BuildResultJs where
  success : Bool
  exitCode : Option Int
  logs : LogsPair
  error : Option String
deriving DecidableEq, Repr

/-- Failure message when artifacts are missing despite exit code 0. -/
def noArtifactsMsg : String :=
  "Build produced no .so artifacts — compilation likely failed"

/-- Failure message when the logs match an error pattern despite exit
code 0. -/
def logsErrorsMsg : String :=
  "Build logs contain errors despite exit code 0"

/-- The post-build verification of smartBuild: even on a zero exit code
the attempt is turned into a failure when no .so artifact was produced
or the combined log matches a known error pattern. -/
def postCheckBuild (r : BuildResultJs)
    (deployListing : Option (List String)) : BuildResultJs :=
  if r.success then
    if !(verifyBuildArtifacts deployListing) || detectBuildErrorsInLogs r.logs then
      { r with success := false
               error := some (if !(verifyBuildArtifacts deployListing)
                              then noArtifactsMsg else logsErrorsMsg) }
    else r
  else r

/-! ## extractCannotFixReason (smartBuild.js)

The source first looks for a fenced ```json block in the advisor's
analysis text, JSON.parses it and returns its `analysis` member when
that is truthy; otherwise it falls back to the fence-stripped, trimmed
text cut to 200 characters, with a fixed default for an empty result.
The JSON.parse model below covers the JSON grammar with two documented
narrowings: a `\u` escape is decoded without surrogate pairing, and a
non-string `analysis` member (the advisor protocol specifies a string)
falls back instead of being returned. -/

/-- The whitespace class used around fences and JSON tokens. -/
def isJsonWs (c : Char) : Bool :=
  c = ' ' || c = Char.ofNat 9 || c = Char.ofNat 10 || c = Char.ofNat 13 ||
  c = Char.ofNat 11 || c = Char.ofNat 12

/-- The opening-brace character, by code point. -/
def lbrace : Char := Char.ofNat 123

/-- The closing-brace character, by code point. -/
def rbrace : Char := Char.ofNat 125

/-- Split a list at the first occurrence of a pattern, returning the
part before it and the part after it. -/
def findSubstrSplit (pat : JStr) : JStr → Option (JStr × JStr)
  | [] => if pat = [] then some ([], []) else none
  | c :: rest =>
    if pat.isPrefixOf (c :: rest) then some ([], (c :: rest).drop pat.length)
    else (findSubstrSplit pat rest).map (fun q => (c :: q.1, q.2))

/-- Three backticks. -/
def fence3 : JStr := ['`', '`', '`']

/-- The json fence opener. -/
def fenceJson : JStr := fence3 ++ ['j', 's', 'o', 'n']

/-- The capture group of the regex ```json\s*([\s\S]*?)\s*``` applied to
the analysis text: text between the first json fence and the next
closing fence, with surrounding whitespace consumed by the regex. -/
def fenceCapture (l : JStr) : Option JStr :=
  match findSubstrSplit fenceJson l with
  | none => none
  | some q =>
    let t := q.2.dropWhile isJsonWs
    match findSubstrSplit fence3 t with
    | none => none
    | some q2 => some ((q2.1.reverse.dropWhile isJsonWs).reverse)

/-- A parsed JSON value; numbers are only recognized, their value is
never read. -/
inductive JsonVal where
  | jstr (s : String)
  | jnum
  | jbool (b : Bool)
  | jnull
  | jarr (vs : List JsonVal)
  | jobj (ms : List (String × JsonVal))
deriving Repr

/-- Hexadecimal digit value. -/
def hexVal (c : Char) : Option Nat :=
  if '0' ≤ c ∧ c ≤ '9' then some (c.toNat - 48)
  else if 'a' ≤ c ∧ c ≤ 'f' then some (c.toNat - 87)
  else if 'A' ≤ c ∧ c ≤ 'F' then some (c.toNat - 55)
  else none

/-- JSON string literal body (after the opening quote), with the JSON
escape sequences; raw control characters are rejected as JSON.parse
does. -/
def parseStringLit : Nat → JStr → JStr → Option (String × JStr)
  | 0, _, _ => none
  | fuel + 1, l, acc =>
    match l with
    | [] => none
    | '"' :: rest => some (String.mk acc.reverse, rest)
    | '\\' :: e :: rest =>
      if e = '"' then parseStringLit fuel rest ('"' :: acc)
      else if e = '\\' then parseStringLit fuel rest ('\\' :: acc)
      else if e = '/' then parseStringLit fuel rest ('/' :: acc)
      else if e = 'b' then parseStringLit fuel rest (Char.ofNat 8 :: acc)
      else if e = 'f' then parseStringLit fuel rest (Char.ofNat 12 :: acc)
      else if e = 'n' then parseStringLit fuel rest (Char.ofNat 10 :: acc)
      else if e = 'r' then parseStringLit fuel rest (Char.ofNat 13 :: acc)
      else if e = 't' then parseStringLit fuel rest (Char.ofNat 9 :: acc)
      else if e = 'u' then
        match rest with
        | h1 :: h2 :: h3 :: h4 :: rest2 =>
          match hexVal h1, hexVal h2, hexVal h3, hexVal h4 with
          | some a, some b, some c, some d =>
            parseStringLit fuel rest2
              (Char.ofNat (((a * 16 + b) * 16 + c) * 16 + d) :: acc)
          | _, _, _, _ => none
        | _ => none
      else none
    | c :: rest =>
      if c.toNat < 32 then none else parseStringLit fuel rest (c :: acc)

/-- JSON number recognizer (sign, integer part without leading zeros,
optional fraction and exponent). -/
def parseNumber (l : JStr) : Option (JsonVal × JStr) :=
  let l1 := match l with
    | '-' :: r => r
    | _ => l
  match l1.takeWhile Char.isDigit with
  | [] => none
  | intPart =>
    if 1 < intPart.length ∧ intPart.head? = some '0' then none
    else
      let r1 := l1.drop intPart.length
      let fr : Option JStr :=
        match r1 with
        | '.' :: fd =>
          match fd.takeWhile Char.isDigit with
          | [] => none
          | ds => some (fd.drop ds.length)
        | _ => some r1
      match fr with
      | none => none
      | some r2 =>
        let ex : Option JStr :=
          match r2 with
          | e :: er =>
            if e = 'e' ∨ e = 'E' then
              let er2 := match er with
                | s :: t => if s = '+' ∨ s = '-' then t else er
                | [] => er
              match er2.takeWhile Char.isDigit with
              | [] => none
              | ds => some (er2.drop ds.length)
            else some r2
          | [] => some r2
        match ex with
        | none => none
        | some r3 => some (JsonVal.jnum, r3)

mutual

/-- JSON value parser (fuel-indexed recursive descent). -/
def parseVal : Nat → JStr → Option (JsonVal × JStr)
  | 0, _ => none
  | fuel + 1, l =>
    let l2 := l.dropWhile isJsonWs
    match l2 with
    | [] => none
    | c :: rest =>
      if c = '"' then
        match parseStringLit fuel rest [] with
        | some (s, r) => some (JsonVal.jstr s, r)
        | none => none
      else if c = lbrace then
        let r2 := rest.dropWhile isJsonWs
        if r2.head? = some rbrace then some (JsonVal.jobj [], r2.drop 1)
        else
          match parseMembers fuel r2 [] with
          | some (ms, r3) => some (JsonVal.jobj ms, r3)
          | none => none
      else if c = '[' then
        let r2 := rest.dropWhile isJsonWs
        if r2.head? = some ']' then some (JsonVal.jarr [], r2.drop 1)
        else
          match parseElems fuel r2 [] with
          | some (vs, r3) => some (JsonVal.jarr vs, r3)
          | none => none
      else if c = 't' then
        if ['r', 'u', 'e'].isPrefixOf rest then
          some (JsonVal.jbool true, rest.drop 3)
        else none
      else if c = 'f' then
        if ['a', 'l', 's', 'e'].isPrefixOf rest then
          some (JsonVal.jbool false, rest.drop 4)
        else none
      else if c = 'n' then
        if ['u', 'l', 'l'].isPrefixOf rest then
          some (JsonVal.jnull, rest.drop 3)
        else none
      else parseNumber l2

/-- JSON object members `"key": value (, ...)*` up to the closing
brace. -/
def parseMembers : Nat → JStr → List (String × JsonVal) →
    Option (List (String × JsonVal) × JStr)
  | 0, _, _ => none
  | fuel + 1, l, acc =>
    match l.dropWhile isJsonWs with
    | '"' :: rest =>
      match parseStringLit fuel rest [] with
      | none => none
      | some (key, r1) =>
        match r1.dropWhile isJsonWs with
        | ':' :: r3 =>
          match parseVal fuel r3 with
          | none => none
          | some (v, r4) =>
            match r4.dropWhile isJsonWs with
            | ',' :: r6 => parseMembers fuel r6 (acc ++ [(key, v)])
            | c :: r7 =>
              if c = rbrace then some (acc ++ [(key, v)], r7) else none
            | [] => none
        | _ => none
    | _ => none

/-- JSON array elements up to the closing bracket. -/
def parseElems : Nat → JStr → List JsonVal →
    Option (List JsonVal × JStr)
  | 0, _, _ => none
  | fuel + 1, l, acc =>
    match parseVal fuel l with
    | none => none
    | some (v, r1) =>
      match r1.dropWhile isJsonWs with
      | ',' :: r2 => parseElems fuel r2 (acc ++ [v])
      | c :: r3 => if c = ']' then some (acc ++ [v], r3) else none
      | [] => none

end

/-- JSON.parse of a whole text: one value with only trailing
whitespace. -/
def jsonParse (l : JStr) : Option JsonVal :=
  match parseVal (2 * l.length + 8) l with
  | some (v, rest) => if rest.dropWhile isJsonWs = [] then some v else none
  | none => none

/-- The `analysis` member of a parsed object (for duplicate keys
JSON.parse keeps the last). -/
def analysisFieldOf : JsonVal → Option String
  | JsonVal.jobj ms =>
    match ms.reverse.find? (fun m => m.1 == "analysis") with
    | some m =>
      match m.2 with
      | JsonVal.jstr s => some s
      | _ => none
    | none => none
  | _ => none

/-- Fuel-indexed removal of every lazily matched ```...``` fenced block
(the fallback's `replace(/```[\s\S]*?```/g, '')`); a lone unclosed fence
is left in place, as the regex then has no match. -/
def removeFencesAux : Nat → JStr → JStr
  | 0, l => l
  | fuel + 1, l =>
    match findSubstrSplit fence3 l with
    | none => l
    | some q =>
      match findSubstrSplit fence3 q.2 with
      | none => l
      | some q2 => q.1 ++ removeFencesAux fuel q2.2

/-- Remove every fenced code block from a character list. -/
def removeCodeFences (l : JStr) : JStr := removeFencesAux l.length l

/-- Trim surrounding whitespace. -/
def trimWsL (l : JStr) : JStr :=
  ((l.dropWhile isJsonWs).reverse.dropWhile isJsonWs).reverse

/-- The fixed fallback reason text. -/
def defaultCannotFixMsg : String :=
  "AI determined this issue cannot be fixed without simplifying the code"

/-- Transcription of extractCannotFixReason: prefer the `analysis`
member of the first fenced JSON block (when it parses and is a nonempty
string), otherwise the fence-stripped trimmed text cut to 200
characters, or the fixed default when that is empty. -/
def extractCannotFixReason (analysis : String) : String :=
  let viaJson : Option String :=
    match fenceCapture analysis.data with
    | none => none
    | some cap =>
      match jsonParse cap with
      | none => none
      | some v =>
        match analysisFieldOf v with
        | some s => if s = "" then none else some s
        | none => none
  match viaJson with
  | some r => r
  | none =>
    let clean := (trimWsL (removeCodeFences analysis.data)).take 200
    if clean = [] then defaultCannotFixMsg else String.mk clean

/-! ## The smart build orchestrator loop (smartBuild.js smartBuild)

The external collaborators are oracles supplied per iteration: the
iteration-0 deep analysis and structure verification are caught
(non-fatal) in the source and only enrich later advisor calls, so they
appear as the verification's net effect on the project tree plus fixed
phase records; the advisor and the sandbox are oracle functions of the
iteration index.  The `buildsRun` field instruments which iterations
actually executed a sandbox run. -/

/-- Result of one analyzeAndFixBuildFailure call (the AI Repair
Advisor): success false means the advisor infrastructure failed after
its retries; cannotFix true means the advisor declined; otherwise fixes
carries the proposals. -/
structure AdvisorResult where
  success : Bool
  cannotFix : Bool
  analysis : String
  fixes : List Fix
  error : Option String
deriving DecidableEq, Repr

/-- One appended entry of the phases audit trail. -/
structure PhaseRecord where
  phase : String
  iteration : Nat
  result : String
deriving DecidableEq, Repr

/-- The external collaborators of one smartBuild run. -/
structure Oracles where
  structureVerify : ProjFS → ProjFS
  advisor : Nat → AdvisorResult
  build : Nat → BuildResultJs
  deployListing : Nat → Option (List String)

/-- Loop-carried state of smartBuild. -/
structure LoopState where
  fs : ProjFS
  phases : List PhaseRecord
  prevFixes : List (List String)
  lastBuild : Option BuildResultJs
  buildsRun : List Nat
deriving DecidableEq, Repr

/-- Result record of smartBuild. -/
structure SmartBuildResult where
  success : Bool
  iterations : Nat
  phases : List PhaseRecord
  cannotFix : Bool
  cannotFixReason : Option String
  finalBuild : Option BuildResultJs
  buildsRun : List Nat
deriving DecidableEq, Repr

/-- The exhaustion reason string of the source. -/
def exhaustedMsg : String :=
  "Exhausted all retry attempts without successful compilation"

/-- The `for (iteration = 0; iteration < MAX_ITERATIONS; iteration++)`
loop of smartBuild as a fuel-indexed recursion with fuel = remaining
iterations; exhausted fuel is the fall-through to the exhaustion
return.  Iteration 0 runs the analysis/verification phase and builds;
iteration ≥ 1 consults the advisor: on advisor failure the iteration is
skipped without a sandbox run, on cannot-fix the loop returns
immediately, otherwise accepted fixes are applied through
applySafeFixes and the sandbox runs, its result post-checked by
postCheckBuild. -/
def smartBuildGo (maxIters : Nat) (orc : Oracles) :
    Nat → Nat → LoopState → SmartBuildResult
  | 0, _, st =>
    { success := false
      iterations := maxIters
      phases := st.phases
      cannotFix := true
      cannotFixReason := some exhaustedMsg
      finalBuild := st.lastBuild
      buildsRun := st.buildsRun }
  | fuel + 1, i, st =>
    let runBuild : LoopState → SmartBuildResult := fun st1 =>
      let b := orc.build i
      let b2 := postCheckBuild b (orc.deployListing i)
      let st2 : LoopState :=
        { st1 with
            lastBuild := some b2
            buildsRun := st1.buildsRun ++ [i]
            phases := st1.phases ++
              [{ phase := "building", iteration := i,
                 result := if b.success then "success" else "failed" }] }
      if b2.success then
        { success := true
          iterations := i + 1
          phases := st2.phases
          cannotFix := false
          cannotFixReason := none
          finalBuild := some b2
          buildsRun := st2.buildsRun }
      else smartBuildGo maxIters orc fuel (i + 1) st2
    if i = 0 then
      runBuild
        { st with
            fs := orc.structureVerify st.fs
            phases := st.phases ++
              [{ phase := "analyzing", iteration := 0, result := "done" },
               { phase := "verifying", iteration := 0, result := "done" }] }
    else
      let adv := orc.advisor i
      if adv.success = false then
        smartBuildGo maxIters orc fuel (i + 1)
          { st with phases := st.phases ++
              [{ phase := "fixing", iteration := i, result := "failed" }] }
      else if adv.cannotFix then
        { success := false
          iterations := i + 1
          phases := st.phases ++
            [{ phase := "fixing", iteration := i, result := "cannot_fix" }]
          cannotFix := true
          cannotFixReason := some (extractCannotFixReason adv.analysis)
          finalBuild := st.lastBuild
          buildsRun := st.buildsRun }
      else if adv.fixes = [] then
        runBuild
          { st with phases := st.phases ++
              [{ phase := "fixing", iteration := i, result := "no_fixes" }] }
      else
        let sr := applySafeFixes i st.fs adv.fixes
        runBuild
          { st with
              fs := sr.fs
              phases := st.phases ++
                [{ phase := "fixing", iteration := i, result := "fixed" }]
              prevFixes := st.prevFixes ++ [sr.applied.map (fun f => f.path)] }

/-- smartBuild: the loop from iteration 0 on a fresh state. -/
def smartBuild (maxIters : Nat) (orc : Oracles) (fs0 : ProjFS) :
    SmartBuildResult :=
  smartBuildGo maxIters orc maxIters 0
    { fs := fs0, phases := [], prevFixes := [], lastBuild := none,
      buildsRun := [] }

/-- A sandbox result with exit code 1 (a plain failing build). -/
def failBuildResult : BuildResultJs :=
  { success := false, exitCode := some 1,
    logs := { stdout := "", stderr := "" }, error := some "Build failed" }

/-- Oracles whose advisor infrastructure always fails: the loop skips
every fixing iteration and exhausts. -/
def c8OraclesA : Oracles :=
  { structureVerify := fun fs => fs
    advisor := fun _ =>
      { success := false, cannotFix := false, analysis := "",
        fixes := [], error := some "AI analysis failed" }
    build := fun _ => failBuildResult
    deployListing := fun _ => none }

/-- Oracles whose advisor declines with an analysis text equal to the
exhaustion sentence: the decline's extracted reason forges the
exhaustion reason. -/
def c8OraclesB : Oracles :=
  { structureVerify := fun fs => fs
    advisor := fun _ =>
      { success := true, cannotFix := true, analysis := exhaustedMsg,
        fixes := [], error := none }
    build := fun _ => failBuildResult
    deployListing := fun _ => none }

/-- Oracles for the C6 witness: the advisor declines at iteration 1. -/
def c6Oracles : Oracles :=
  { structureVerify := fun fs => fs
    advisor := fun _ =>
      { success := true, cannotFix := true,
        analysis := "stack offsets exceed the BPF limit",
        fixes := [], error := none }
    build := fun _ => failBuildResult
    deployListing := fun _ => none }

/-- A loop state for the C6 witness: iteration 0 already built. -/
def c6State : LoopState :=
  { fs := [], phases := [], prevFixes := [],
    lastBuild := some failBuildResult, buildsRun := [0] }

/-- A zero-exit sandbox result whose log carries a structured rustc
error code (for the C7 witness). -/
def c7SampleBuild : BuildResultJs :=
  { success := true, exitCode := some 0,
    logs := { stdout := "error[E0382]: borrow of moved value", stderr := "" },
    error := none }

/-- A deploy listing holding one shared object (for the C7 witness). -/
def c7SampleListing : Option (List String) := some ["prog.so"]

/-! ## Per-agent build concurrency (agent router admit and release)

The Node event loop runs a handler's code atomically between awaits.  In
the one-shot build route the handler checks activeAgentBuilds, then
awaits project creation (or the repository clone), then calls
setActiveAgentBuild, then awaits the build, then clears the entry in a
finally block: the check and the insert are in different atomic blocks.
Two concurrent requests from the same agent are two such processes
interleaved by a scheduler over the shared map, which for one principal
is a single Boolean (entry present or not). -/

/-- The phase of one request handler between atomic blocks. -/
inductive ReqPhase where
  | start
  | creating
  | running
  | refused
  | done
deriving DecidableEq, Repr, Fintype

/-- One atomic block of the route handler for one request, as the code
interleaves: from `start` run the concurrency check (refuse with 409
when the map holds an entry, otherwise proceed into the awaited project
creation); from `creating` resume after the await and run
setActiveAgentBuild; from `running` resume after the awaited build and
run clearActiveAgentBuild. -/
def handlerStep (locked : Bool) (p : ReqPhase) : Bool × ReqPhase :=
  match p with
  | ReqPhase.start =>
    if locked then (locked, ReqPhase.refused) else (locked, ReqPhase.creating)
  | ReqPhase.creating => (true, ReqPhase.running)
  | ReqPhase.running => (false, ReqPhase.done)
  | ReqPhase.refused => (locked, ReqPhase.refused)
  | ReqPhase.done => (locked, ReqPhase.done)

/-- The admit of the specification: check and insert in one atomic
block. -/
def handlerStepAtomic (locked : Bool) (p : ReqPhase) : Bool × ReqPhase :=
  match p with
  | ReqPhase.start =>
    if locked then (locked, ReqPhase.refused) else (true, ReqPhase.running)
  | ReqPhase.creating => (locked, ReqPhase.creating)
  | ReqPhase.running => (false, ReqPhase.done)
  | ReqPhase.refused => (locked, ReqPhase.refused)
  | ReqPhase.done => (locked, ReqPhase.done)

/-- The two concurrent requests of the race. -/
inductive ReqId where
  | reqA
  | reqB
deriving DecidableEq, Repr, Fintype

/-- Shared state: the agent's activeAgentBuilds entry and both request
phases. -/
structure GuardState where
  locked : Bool
  a : ReqPhase
  b : ReqPhase
deriving DecidableEq, Repr, Fintype

/-- Scheduler step: run the next atomic block of the chosen request. -/
def guardStep (step : Bool → ReqPhase → Bool × ReqPhase)
    (s : GuardState) (r : ReqId) : GuardState :=
  match r with
  | ReqId.reqA =>
    let q := step s.locked s.a
    { s with locked := q.1, a := q.2 }
  | ReqId.reqB =>
    let q := step s.locked s.b
    { s with locked := q.1, b := q.2 }

/-- Run a schedule from the initial state (no active build, both
requests arriving). -/
def runSchedule (step : Bool → ReqPhase → Bool × ReqPhase)
    (sched : List ReqId) : GuardState :=
  sched.foldl (guardStep step)
    { locked := false, a := ReqPhase.start, b := ReqPhase.start }

/-- Two builds running at one instant for the same principal. -/
abbrev bothRunning (s : GuardState) : Prop :=
  s.a = ReqPhase.running ∧ s.b = ReqPhase.running

/-- Invariant of the atomic-admit model: a running build holds the map
entry, and at most one request is running. -/
abbrev AtomicInv (s : GuardState) : Prop :=
  (s.a = ReqPhase.running → s.locked = true) ∧
  (s.b = ReqPhase.running → s.locked = true) ∧
  ¬(s.a = ReqPhase.running ∧ s.b = ReqPhase.running)

end OpenCompiler

namespace OpenCompiler

/-! ## Lemmas about the path model -/

theorem splitSlash_ne_nil (l : JStr) : splitSlash l ≠ [] := by
  induction l with
  | nil => simp [splitSlash]
  | cons c rest ih =>
    simp only [splitSlash]
    split
    · simp
    · cases h : splitSlash rest with
      | nil => simp
      | cons g gs => simp

theorem mem_splitSlash_no_slash (l : JStr) :
    ∀ g ∈ splitSlash l, '/' ∉ g := by
  induction l with
  | nil => intro g hg; simp [splitSlash] at hg; simp [hg]
  | cons c rest ih =>
    intro g hg
    simp only [splitSlash] at hg
    by_cases hc : c = '/'
    · simp [hc] at hg
      rcases hg with hg | hg
      · simp [hg]
      · exact ih g hg
    · simp [hc] at hg
      cases h : splitSlash rest with
      | nil => exact absurd h (splitSlash_ne_nil rest)
      | cons g0 gs =>
        rw [h] at hg
        simp at hg
        rcases hg with hg | hg
        · subst hg
          intro hmem
          rcases List.mem_cons.mp hmem with h1 | h1
          · exact hc h1.symm
          · exact ih g0 (h ▸ List.mem_cons_self g0 gs) h1
        · exact ih g (h ▸ List.mem_cons_of_mem g0 hg)

theorem splitSlash_no_slash (g : JStr) (h : '/' ∉ g) : splitSlash g = [g] := by
  induction g with
  | nil => rfl
  | cons c rest ih =>
    have hc : c ≠ '/' := fun hcc => h (hcc ▸ List.mem_cons_self c rest)
    have hr : splitSlash rest = [rest] := ih (fun hm => h (List.mem_cons_of_mem c hm))
    simp only [splitSlash, hc, if_neg, hr]
    simp [hc]

theorem splitSlash_append (g t : JStr) (h : '/' ∉ g) :
    splitSlash (g ++ '/' :: t) = g :: splitSlash t := by
  induction g with
  | nil => simp [splitSlash]
  | cons c rest ih =>
    have hc : c ≠ '/' := fun hcc => h (hcc ▸ List.mem_cons_self c rest)
    have hr := ih (fun hm => h (List.mem_cons_of_mem c hm))
    rw [List.cons_append]
    simp only [splitSlash]
    rw [if_neg hc, hr]

theorem splitSlash_joinSlash (gs : List JStr) (hne : gs ≠ [])
    (h : ∀ g ∈ gs, '/' ∉ g) : splitSlash (joinSlash gs) = gs := by
  induction gs with
  | nil => exact absurd rfl hne
  | cons g rest ih =>
    cases rest with
    | nil =>
      simp only [joinSlash]
      exact splitSlash_no_slash g (h g (List.mem_cons_self g []))
    | cons g2 gs2 =>
      simp only [joinSlash]
      rw [splitSlash_append g _ (h g (List.mem_cons_self g _))]
      rw [ih (by simp) (fun x hx => h x (List.mem_cons_of_mem g hx))]

theorem splitSlash_cons_ne (c : Char) (t : JStr) (hc : c ≠ '/') :
    splitSlash (c :: t) = (c :: (splitSlash t).headI) :: (splitSlash t).tail := by
  cases h : splitSlash t with
  | nil => exact absurd h (splitSlash_ne_nil t)
  | cons g gs => simp [splitSlash, hc, h]

theorem splitSlash_first (s : JStr) (g : JStr) (gs : List JStr)
    (h : splitSlash s = g :: gs) :
    (gs = [] ∧ s = g) ∨ ∃ t, s = g ++ '/' :: t ∧ splitSlash t = gs := by
  induction s generalizing g gs with
  | nil =>
    simp only [splitSlash] at h
    cases h
    exact Or.inl ⟨rfl, rfl⟩
  | cons c rest ih =>
    by_cases hc : c = '/'
    · subst hc
      simp only [splitSlash, if_pos rfl] at h
      cases h
      exact Or.inr ⟨rest, rfl, rfl⟩
    · rw [splitSlash_cons_ne c rest hc] at h
      cases h
      cases h0 : splitSlash rest with
      | nil => exact absurd h0 (splitSlash_ne_nil rest)
      | cons g0 gs0 =>
        rcases ih g0 gs0 h0 with ⟨h1, h2⟩ | ⟨t, h1, h2⟩
        · refine Or.inl ⟨?_, ?_⟩
          · simp [h0, h1]
          · simp [h0, h2]
        · refine Or.inr ⟨t, ?_, ?_⟩
          · simp [h0, h1]
          · simp [h0, h2]

theorem goodStack_normStep (isAbs : Bool) (st : List JStr) (seg : JStr)
    (hst : GoodStack st) (hseg : seg ≠ [] ∧ seg ≠ ['.'] ∧ '/' ∉ seg) :
    GoodStack (normStep isAbs st seg) := by
  obtain ⟨ns, ds, rfl, hns, hds⟩ := hst
  by_cases hdd : seg = dd
  · subst hdd
    simp only [normStep, if_pos rfl]
    cases hns0 : ns with
    | nil =>
      cases hds0 : ds with
      | nil =>
        subst hns0; subst hds0
        simp only [List.nil_append]
        cases isAbs with
        | true => exact ⟨[], [], by simp, by simp, by simp⟩
        | false => exact ⟨[], [dd], by simp, by simp, by simp⟩
      | cons d ds2 =>
        subst hns0; subst hds0
        simp only [List.nil_append]
        rw [if_pos (hds d (List.mem_cons_self d ds2))]
        refine ⟨[], dd :: d :: ds2, rfl, by simp, ?_⟩
        intro g hg
        rcases List.mem_cons.mp hg with h | h
        · exact h
        · exact hds g h
    | cons n ns2 =>
      subst hns0
      simp only [List.cons_append]
      have hn := hns n (List.mem_cons_self n ns2)
      rw [if_neg hn.2.2.1]
      exact ⟨ns2, ds, rfl, fun g hg => hns g (List.mem_cons_of_mem n hg), hds⟩
  · simp only [normStep, if_neg hdd]
    exact ⟨seg :: ns, ds, rfl,
      fun g hg => by
        rcases List.mem_cons.mp hg with h | h
        · subst h; exact ⟨hseg.1, hseg.2.1, hdd, hseg.2.2⟩
        · exact hns g h,
      hds⟩

theorem goodStack_foldl (isAbs : Bool) (segs : List JStr) (st : List JStr)
    (hst : GoodStack st)
    (hsegs : ∀ g ∈ segs, g ≠ [] ∧ g ≠ ['.'] ∧ '/' ∉ g) :
    GoodStack (List.foldl (normStep isAbs) st segs) := by
  induction segs generalizing st with
  | nil => exact hst
  | cons seg rest ih =>
    simp only [List.foldl_cons]
    exact ih (normStep isAbs st seg)
      (goodStack_normStep isAbs st seg hst (hsegs seg (List.mem_cons_self seg rest)))
      (fun g hg => hsegs g (List.mem_cons_of_mem seg hg))

theorem mem_pathSegsL (p : JStr) (g : JStr) (hg : g ∈ pathSegsL p) :
    g ≠ [] ∧ g ≠ ['.'] ∧ '/' ∉ g := by
  have h := List.mem_filter.mp hg
  have h2 := of_decide_eq_true h.2
  exact ⟨h2.1, h2.2, mem_splitSlash_no_slash p g h.1⟩

theorem goodStack_normStack (isAbs : Bool) (p : JStr) :
    GoodStack (normStack isAbs (pathSegsL p)) :=
  goodStack_foldl isAbs (pathSegsL p) []
    ⟨[], [], rfl, by simp, by simp⟩ (mem_pathSegsL p)

theorem strip_stripInv (s : JStr) (h : StripInv s) :
    NoDD (splitSlash (stripLeadingDotDot s)) := by
  induction s using stripLeadingDotDot.induct with
  | case1 rest ih =>
    obtain ⟨k, gs, hsp, hgs⟩ := h
    rw [show ('.' :: '.' :: '/' :: rest) = dd ++ '/' :: rest from rfl,
        splitSlash_append dd rest (by decide)] at hsp
    cases k with
    | zero =>
      simp only [List.replicate, List.nil_append] at hsp
      have hmem : dd ∈ gs := hsp ▸ List.mem_cons_self dd (splitSlash rest)
      exact absurd rfl (hgs dd hmem)
    | succ k2 =>
      simp only [List.replicate, List.cons_append] at hsp
      rw [show stripLeadingDotDot ('.' :: '.' :: '/' :: rest)
            = stripLeadingDotDot rest from rfl]
      exact ih ⟨k2, gs, (List.cons.injEq _ _ _ _).mp hsp |>.2, hgs⟩
  | case2 rest ih =>
    obtain ⟨k, gs, hsp, hgs⟩ := h
    rw [splitSlash_cons_ne '.' _ (by decide), splitSlash_cons_ne '.' _ (by decide),
        splitSlash_cons_ne '\\' _ (by decide)] at hsp
    simp only [List.headI, List.tail] at hsp
    rw [show stripLeadingDotDot ('.' :: '.' :: '\\' :: rest)
          = stripLeadingDotDot rest from rfl]
    cases hr : splitSlash rest with
    | nil => exact absurd hr (splitSlash_ne_nil rest)
    | cons g0 gs0 =>
      rw [hr] at hsp
      simp only [List.headI, List.tail_cons] at hsp
      cases k with
      | succ k2 =>
        simp only [List.replicate, List.cons_append] at hsp
        have hfst := ((List.cons.injEq _ _ _ _).mp hsp).1
        simp [dd] at hfst
      | zero =>
        simp only [List.replicate, List.nil_append] at hsp
        have hgs0 : NoDD gs0 := by
          intro g hg
          exact hgs g (hsp ▸ List.mem_cons_of_mem _ hg)
        by_cases hg0 : g0 = dd
        · exact ih ⟨1, gs0, by simp [hr, hg0, List.replicate], hgs0⟩
        · refine ih ⟨0, g0 :: gs0, by simp [hr, List.replicate], ?_⟩
          intro g hg
          rcases List.mem_cons.mp hg with h1 | h1
          · subst h1; exact hg0
          · exact hgs0 g h1
  | case3 =>
    rw [show stripLeadingDotDot ['.', '.'] = [] from rfl]
    intro g hg
    simp only [splitSlash, List.mem_singleton] at hg
    subst hg
    decide
  | case4 s h1 h2 h3 =>
    have hself : stripLeadingDotDot s = s := by
      simp only [stripLeadingDotDot.eq_def]
    rw [hself]
    obtain ⟨k, gs, hsp, hgs⟩ := h
    cases k with
    | zero =>
      simp only [List.replicate, List.nil_append] at hsp
      exact hsp ▸ hgs
    | succ k2 =>
      simp only [List.replicate, List.cons_append] at hsp
      rcases splitSlash_first s dd _ hsp with ⟨_, hs⟩ | ⟨t, hs, _⟩
      · exact absurd hs (h3 ·)
      · exact absurd hs (h1 t ·)

theorem splitSlash_append_slash (x : JStr) :
    splitSlash (x ++ ['/']) = splitSlash x ++ [[]] := by
  induction x with
  | nil => rfl
  | cons c rest ih =>
    by_cases hc : c = '/'
    · subst hc
      rw [List.cons_append]
      simp only [splitSlash, if_pos rfl, ih]
      rfl
    · rw [List.cons_append, splitSlash_cons_ne c _ hc, splitSlash_cons_ne c _ hc, ih]
      cases h : splitSlash rest with
      | nil => exact absurd h (splitSlash_ne_nil rest)
      | cons g gs => simp [h]

theorem strip_of_head_slash (s : JStr) (h : s.head? = some '/') :
    stripLeadingDotDot s = s := by
  cases s with
  | nil => simp at h
  | cons c rest =>
    simp only [List.head?_cons, Option.some.injEq] at h
    subst h
    simp [stripLeadingDotDot.eq_def]

theorem stripInv_normalize (p : JStr) :
    (pathNormalizeL p).head? = some '/' ∨ StripInv (pathNormalizeL p) := by
  by_cases hnil : p = []
  · subst hnil
    exact Or.inr ⟨0, [['.']], by decide, by decide⟩
  · by_cases habs : p.head? = some '/'
    · by_cases hbody : joinSlash (normStack true (pathSegsL p)).reverse = []
      · left
        simp [pathNormalizeL, hnil, habs, hbody]
      · left
        simp [pathNormalizeL, hnil, habs, hbody]
    · right
      obtain ⟨ns, ds, hstack, hns, hds⟩ := goodStack_normStack false p
      have hgoal :
          ∀ body2, (∃ tr : Bool,
              body2 = (if tr then joinSlash (ns ++ ds).reverse ++ ['/']
                       else joinSlash (ns ++ ds).reverse) ∧
              joinSlash (ns ++ ds).reverse ≠ []) →
            StripInv body2 := by
        intro body2 hb2
        obtain ⟨tr, hb2eq, hbne⟩ := hb2
        have hrevne : (ns ++ ds).reverse ≠ [] := by
          intro hrev
          exact hbne (by rw [hrev]; rfl)
        have hddrev : ds.reverse = List.replicate ds.length dd := by
          have h0 := List.eq_replicate_of_mem (fun b hb => hds b (List.mem_reverse.mp hb))
          rwa [List.length_reverse] at h0
        have hsfree : ∀ g ∈ (ns ++ ds).reverse, '/' ∉ g := by
          intro g hg
          rcases List.mem_append.mp (List.mem_reverse.mp hg) with h1 | h1
          · exact (hns g h1).2.2.2
          · rw [hds g h1]; decide
        have hsplit : splitSlash (joinSlash (ns ++ ds).reverse) = (ns ++ ds).reverse :=
          splitSlash_joinSlash _ hrevne hsfree
        have hrev2 : (ns ++ ds).reverse = List.replicate ds.length dd ++ ns.reverse := by
          rw [List.reverse_append, hddrev]
        have hnsrev : ∀ g ∈ ns.reverse, g ≠ dd :=
          fun g hg => (hns g (List.mem_reverse.mp hg)).2.2.1
        cases tr with
        | false =>
          simp only [Bool.false_eq_true, if_false] at hb2eq
          subst hb2eq
          exact ⟨ds.length, ns.reverse, by rw [hsplit, hrev2], hnsrev⟩
        | true =>
          simp only [if_true] at hb2eq
          subst hb2eq
          refine ⟨ds.length, ns.reverse ++ [[]], ?_, ?_⟩
          · rw [splitSlash_append_slash, hsplit, hrev2, List.append_assoc]
          · intro g hg
            rcases List.mem_append.mp hg with h1 | h1
            · exact hnsrev g h1
            · rw [List.mem_singleton.mp h1]; decide
      by_cases hbody : joinSlash (normStack false (pathSegsL p)).reverse = []
      · by_cases htr : p.getLast? = some '/'
        · have hform : pathNormalizeL p = ['.', '/'] := by
            simp [pathNormalizeL, hnil, habs, htr, hbody]
          rw [hform]
          exact ⟨0, [['.'], []], by decide, by decide⟩
        · have hform : pathNormalizeL p = ['.'] := by
            simp [pathNormalizeL, hnil, habs, htr, hbody]
          rw [hform]
          exact ⟨0, [['.']], by decide, by decide⟩
      · by_cases htr : p.getLast? = some '/'
        · have hform : pathNormalizeL p
              = joinSlash (normStack false (pathSegsL p)).reverse ++ ['/'] := by
            simp [pathNormalizeL, hnil, habs, htr, hbody]
          rw [hform, hstack]
          exact hgoal _ ⟨true, by simp, hstack ▸ hbody⟩
        · have hform : pathNormalizeL p
              = joinSlash (normStack false (pathSegsL p)).reverse := by
            simp [pathNormalizeL, hnil, habs, htr, hbody]
          rw [hform, hstack]
          exact hgoal _ ⟨false, by simp, hstack ▸ hbody⟩

theorem sanitize_noDD (p sp : JStr) (h : sanitizeProjectPathL p = some sp) :
    sp.head? ≠ some '/' ∧ (Char.ofNat 0) ∉ sp ∧ NoDD (splitSlash sp) := by
  simp only [sanitizeProjectPathL] at h
  by_cases hc : (stripLeadingDotDot (pathNormalizeL p)).head? = some '/' ∨
      (Char.ofNat 0) ∈ stripLeadingDotDot (pathNormalizeL p)
  · rw [if_pos hc] at h
    cases h
  · rw [if_neg hc] at h
    cases h
    push_neg at hc
    refine ⟨hc.1, hc.2, ?_⟩
    rcases stripInv_normalize p with h1 | h1
    · rw [strip_of_head_slash _ h1] at hc
      exact absurd h1 hc.1
    · exact strip_stripInv _ h1

theorem prefix_foldl_resolve (l : List JStr) (hl : ∀ g ∈ l, g ≠ dd)
    (base : List JStr) :
    base <+: l.foldl
      (fun acc seg => if seg = dd then acc.dropLast else acc ++ [seg]) base := by
  induction l generalizing base with
  | nil => exact List.prefix_refl base
  | cons g rest ih =>
    simp only [List.foldl_cons]
    rw [if_neg (hl g (List.mem_cons_self g rest))]
    exact List.IsPrefix.trans (List.prefix_append base [g])
      (ih (fun x hx => hl x (List.mem_cons_of_mem g hx)) (base ++ [g]))

theorem prefix_resolveSegs (sp : JStr) (hnd : NoDD (splitSlash sp))
    (base : List JStr) : base <+: resolveSegs base sp :=
  prefix_foldl_resolve (pathSegsL sp)
    (fun g hg => hnd g (List.mem_filter.mp hg).1) base

theorem createProject_written (files : List (JStr × String)) :
    ∀ e ∈ (createProjectFromFilesL files).1,
      ∃ fp, sanitizeProjectPathL fp = some e.1 := by
  induction files with
  | nil => intro e he; simp [createProjectFromFilesL] at he
  | cons f rest ih =>
    intro e he
    obtain ⟨fp, c⟩ := f
    simp only [createProjectFromFilesL] at he
    cases hs : sanitizeProjectPathL fp with
    | none => rw [hs] at he; simp at he
    | some sp =>
      rw [hs] at he
      simp only [List.mem_cons] at he
      rcases he with he | he
      · exact ⟨fp, by rw [hs, he]⟩
      · exact ih e he

theorem createProject_error (files : List (JStr × String)) (fp : JStr)
    (c : String) (hmem : (fp, c) ∈ files)
    (hbad : sanitizeProjectPathL fp = none) :
    ((createProjectFromFilesL files).2).isSome = true := by
  induction files with
  | nil => simp at hmem
  | cons f rest ih =>
    obtain ⟨fp0, c0⟩ := f
    simp only [createProjectFromFilesL]
    cases hs : sanitizeProjectPathL fp0 with
    | none => simp
    | some sp =>
      rcases List.mem_cons.mp hmem with h | h
      · obtain ⟨rfl, rfl⟩ := Prod.mk.injEq .. ▸ (Prod.ext_iff.mp h)
        rw [hs] at hbad
        cases hbad
      · exact ih h

/-- C10: every file actually written by createProjectFromFiles resolves
to a location inside the project directory — the sanitized path is
relative, contains no NUL character and no `..` segment, so resolving it
against any base directory keeps the base as a prefix; and a
caller-supplied path that is absolute or contains a NUL byte makes the
operation raise an error, so that file is never written. -/
theorem c10_path_sanitization (files : List (JStr × String)) :
    (∀ e ∈ (createProjectFromFilesL files).1,
        e.1.head? ≠ some '/' ∧ (Char.ofNat 0) ∉ e.1 ∧
        ∀ base, base <+: resolveSegs base e.1) ∧
    (∀ fp c, (fp, c) ∈ files → sanitizeProjectPathL fp = none →
        ((createProjectFromFilesL files).2).isSome = true) := by
  constructor
  · intro e he
    obtain ⟨fp, hfp⟩ := createProject_written files e he
    obtain ⟨h1, h2, h3⟩ := sanitize_noDD fp e.1 hfp
    exact ⟨h1, h2, fun base => prefix_resolveSegs e.1 h3 base⟩
  · intro fp c hmem hbad
    exact createProject_error files fp c hmem hbad

/-- Witness for C10 at a concrete file map containing one good path and
one absolute path. -/
theorem c10_path_sanitization_witness :
    ("lib.rs".data.head? ≠ some '/' ∧ (Char.ofNat 0) ∉ "lib.rs".data ∧
      ∀ base, base <+: resolveSegs base "lib.rs".data) ∧
    ((createProjectFromFilesL
        [("lib.rs".data, "c"), ("/etc/passwd".data, "d")]).2).isSome = true := by
  constructor
  · exact (c10_path_sanitization
        [("lib.rs".data, "c"), ("/etc/passwd".data, "d")]).1
      ("lib.rs".data, "c") (by decide)
  · exact (c10_path_sanitization
        [("lib.rs".data, "c"), ("/etc/passwd".data, "d")]).2
      "/etc/passwd".data "d" (by decide) (by decide)

/-! ## Theorems about the fix safety validator -/

/-- C3: the regression guard rejects a proposed replacement of an
existing (readable) compiled-source file exactly when one of the
construct counts decreases or the file has more than 10 lines and the
replacement is under 70% of its line count; every other update to that
file passes the guard. -/
theorem c3_regression_guard (ex proposed : RsContent) :
    (validateRsFixSafety (some ex) proposed).safe = false ↔
      (proposed.fns < ex.fns ∨ proposed.structs < ex.structs ∨
       proposed.enums < ex.enums ∨ proposed.impls < ex.impls ∨
       (10 < ex.lines ∧ 10 * proposed.lines < 7 * ex.lines)) := by
  simp only [validateRsFixSafety]
  split_ifs with h1 h2 h3 h4 h5 <;> simp_all

/-- Witness for C3 at concrete construct counts: one function removed is
rejected, an equal-or-larger replacement is accepted. -/
theorem c3_regression_guard_witness :
    ((validateRsFixSafety (some ⟨3, 2, 1, 2, 50⟩) ⟨2, 2, 1, 2, 60⟩).safe
        = false ↔
      (2 < 3 ∨ 2 < 2 ∨ 1 < 1 ∨ 2 < 2 ∨ (10 < 50 ∧ 10 * 60 < 7 * 50))) ∧
    ((validateRsFixSafety (some ⟨3, 2, 1, 2, 50⟩) ⟨3, 2, 1, 2, 55⟩).safe
        = false ↔
      (3 < 3 ∨ 2 < 2 ∨ 1 < 1 ∨ 2 < 2 ∨ (10 < 50 ∧ 10 * 55 < 7 * 50))) :=
  ⟨c3_regression_guard ⟨3, 2, 1, 2, 50⟩ ⟨2, 2, 1, 2, 60⟩,
   c3_regression_guard ⟨3, 2, 1, 2, 50⟩ ⟨3, 2, 1, 2, 55⟩⟩

theorem rsChecks_ok_inv (fs : ProjFS) (f f2 : Fix) (c : RsContent)
    (h : rsChecks fs f c = Except.ok f2) :
    f2.path = f.path ∧ f2.action ≠ "create" ∧ f2.action ≠ "delete" := by
  simp only [rsChecks] at h
  by_cases hcr : f.action == "create"
  · rw [if_pos hcr] at h
    by_cases hex : (fsLookup fs f.path).isSome
    · rw [if_pos hex] at h
      simp only [] at h
      by_cases hdel : ({ f with action := "update" } : Fix).action == "delete"
      · simp at hdel
      · rw [if_neg hdel] at h
        split at h
        · injection h with h
          subst h
          exact ⟨rfl, by simp, by simp⟩
        · cases h
    · rw [if_neg hex] at h
      cases h
  · rw [if_neg hcr] at h
    simp only [] at h
    by_cases hdel : f.action == "delete"
    · rw [if_pos hdel] at h
      cases h
    · rw [if_neg hdel] at h
      split at h
      · injection h with h
        subst h
        exact ⟨rfl, by simpa using hcr, by simpa using hdel⟩
      · cases h

theorem processFix_applied_inv (it : Nat) (fs : ProjFS) (f f2 : Fix)
    (fs2 : ProjFS) (h : processFix it fs f = (FixOutcome.applied f2, fs2)) :
    (it = 0 → isConfigExt (extname f2.path) = true) ∧
    (extname f2.path = ".rs" → f2.action ≠ "create" ∧ f2.action ≠ "delete") := by
  cases hc : f.content with
  | none => simp [processFix, hc] at h
  | some c =>
    simp only [processFix, hc] at h
    by_cases hp : f.path = ""
    · simp only [if_pos hp] at h
      exact absurd h (by simp)
    · rw [if_neg hp] at h
      by_cases h0 : (it == 0 && !(isConfigExt (extname f.path))) = true
      · rw [if_pos h0] at h
        exact absurd h (by simp)
      · rw [if_neg h0] at h
        by_cases hrs : (decide (0 < it) && (extname f.path == ".rs")) = true
        · cases hck : rsChecks fs f c with
          | error r =>
            rw [if_pos hrs, hck] at h
            exact absurd h (by simp)
          | ok fok =>
            rw [if_pos hrs, hck] at h
            by_cases hz : (it == 0 && (extname f.path == ".rs")) = true
            · simp only [hz, if_true] at h
              exact absurd h (by simp)
            · simp only [hz, if_false, Bool.false_eq_true] at h
              rw [Prod.mk.injEq] at h
              obtain ⟨h1, h2⟩ := h
              injection h1 with h1
              obtain ⟨hpath, hc1, hc2⟩ := rsChecks_ok_inv fs f fok c hck
              have h0' : 0 < it := by
                have hh := hrs
                simp only [Bool.and_eq_true, decide_eq_true_eq] at hh
                exact hh.1
              rw [← h1]
              refine ⟨fun hit => absurd (hit ▸ h0') (by simp), fun _ => ⟨hc1, hc2⟩⟩
        · rw [if_neg hrs] at h
          by_cases hz : (it == 0 && (extname f.path == ".rs")) = true
          · simp only [hz, if_true] at h
            exact absurd h (by simp)
          · simp only [hz, if_false, Bool.false_eq_true] at h
            rw [Prod.mk.injEq] at h
            obtain ⟨h1, h2⟩ := h
            injection h1 with h1
            rw [← h1]
            constructor
            · intro hit
              subst hit
              simp only [beq_self_eq_true, Bool.true_and, Bool.not_eq_true'] at h0
              cases hB : isConfigExt (extname f.path) with
              | false => exact absurd hB h0
              | true => rfl
            · intro hext
              exfalso
              by_cases hit : it = 0
              · subst hit
                simp only [beq_self_eq_true, Bool.true_and, Bool.not_eq_true'] at h0
                rw [hext] at h0
                exact h0 (by decide)
              · exact hrs (by simp [hext, Nat.pos_of_ne_zero hit])

theorem applySafeFixes_applied_inv (it : Nat) (fs : ProjFS)
    (fixes : List Fix) :
    ∀ f ∈ (applySafeFixes it fs fixes).applied,
      (it = 0 → isConfigExt (extname f.path) = true) ∧
      (extname f.path = ".rs" → f.action ≠ "create" ∧ f.action ≠ "delete") := by
  induction fixes generalizing fs with
  | nil => intro f hf; simp [applySafeFixes] at hf
  | cons f0 rest ih =>
    intro f hf
    simp only [applySafeFixes] at hf
    cases hp : processFix it fs f0 with
    | mk out fs2 =>
      cases out with
      | applied f2 =>
        rw [hp] at hf
        simp only [List.mem_cons] at hf
        rcases hf with hf | hf
        · subst hf
          exact processFix_applied_inv it fs f0 f fs2 hp
        · exact ih fs2 f hf
      | rejected f2 r =>
        rw [hp] at hf
        exact ih fs2 f hf

theorem applySafeFixes_partition (it : Nat) (fs : ProjFS)
    (fixes : List Fix) :
    (applySafeFixes it fs fixes).applied.length
      + (applySafeFixes it fs fixes).rejected.length = fixes.length := by
  induction fixes generalizing fs with
  | nil => rfl
  | cons f rest ih =>
    simp only [applySafeFixes]
    cases hp : processFix it fs f with
    | mk out fs2 =>
      cases out with
      | applied f2 =>
        simp only [hp]
        have := ih fs2
        simp only [List.length_cons]
        omega
      | rejected f2 reason =>
        simp only [hp]
        have := ih fs2
        simp only [List.length_cons]
        omega

/-- C2: the phase allow-list of the fix validator.  Every applied fix at
iteration 0 has a configuration-file extension (so no `.rs` file is ever
applied at iteration 0), no applied fix is a `.rs` create or delete at
any iteration, a create of a `.rs` path with no existing file at
iteration ≥ 1 is rejected, a delete of a `.rs` file at iteration ≥ 1 is
rejected, and every proposal of the batch lands in exactly one of the
applied and rejected lists (so a proposal that is not applied is
rejected). -/
theorem c2_phase_allowlist :
    (∀ (it : Nat) (fs : ProjFS) (fixes : List Fix) (f : Fix),
        f ∈ (applySafeFixes it fs fixes).applied →
        (it = 0 → isConfigExt (extname f.path) = true) ∧
        (extname f.path = ".rs" → f.action ≠ "create" ∧ f.action ≠ "delete")) ∧
    (∀ (it : Nat) (fs : ProjFS) (f : Fix) (c : RsContent),
        1 ≤ it → extname f.path = ".rs" → f.action = "create" →
        f.content = some c → fsLookup fs f.path = none →
        processFix it fs f =
          (FixOutcome.rejected f RejectReason.cannotCreateRs, fs)) ∧
    (∀ (it : Nat) (fs : ProjFS) (f : Fix) (c : RsContent),
        1 ≤ it → extname f.path = ".rs" → f.action = "delete" →
        f.content = some c →
        processFix it fs f =
          (FixOutcome.rejected f RejectReason.cannotDeleteRs, fs)) ∧
    (∀ (it : Nat) (fs : ProjFS) (fixes : List Fix),
        (applySafeFixes it fs fixes).applied.length
          + (applySafeFixes it fs fixes).rejected.length = fixes.length) := by
  refine ⟨fun it fs fixes f hf => applySafeFixes_applied_inv it fs fixes f hf,
    ?_, ?_, fun it fs fixes => applySafeFixes_partition it fs fixes⟩
  · intro it fs f c hit hext hact hcont hlook
    have hp : f.path ≠ "" := by
      intro h0
      rw [h0] at hext
      exact absurd hext (by decide)
    have hit0 : it ≠ 0 := by omega
    simp only [processFix, hcont, if_neg hp]
    rw [if_neg (by simp [hit0])]
    rw [if_pos (by simp [hext]; omega)]
    simp [rsChecks, hact, hlook]
  · intro it fs f c hit hext hact hcont
    have hp : f.path ≠ "" := by
      intro h0
      rw [h0] at hext
      exact absurd hext (by decide)
    have hit0 : it ≠ 0 := by omega
    simp only [processFix, hcont, if_neg hp]
    rw [if_neg (by simp [hit0])]
    rw [if_pos (by simp [hext]; omega)]
    simp [rsChecks, hact]

/-- Witness for C2: a concrete batch at iteration 0 applying a toml file
and rejecting an rs file, plus concrete rs create/delete rejections at
iteration 1. -/
theorem c2_phase_allowlist_witness :
    (({ action := "create", path := "Anchor.toml",
        content := some ⟨0, 0, 0, 0, 5⟩ } : Fix) ∈
      (applySafeFixes 0 []
        [{ action := "create", path := "Anchor.toml",
           content := some ⟨0, 0, 0, 0, 5⟩ },
         { action := "create", path := "src/lib.rs",
           content := some ⟨1, 1, 0, 1, 40⟩ }]).applied ∧
      (0 = 0 → isConfigExt (extname "Anchor.toml") = true)) ∧
    processFix 1 []
      { action := "create", path := "src/lib.rs",
        content := some ⟨1, 1, 0, 1, 40⟩ } =
      (FixOutcome.rejected
        { action := "create", path := "src/lib.rs",
          content := some ⟨1, 1, 0, 1, 40⟩ } RejectReason.cannotCreateRs,
        []) ∧
    processFix 1 [("src/lib.rs", ⟨1, 1, 0, 1, 40⟩)]
      { action := "delete", path := "src/lib.rs",
        content := some ⟨0, 0, 0, 0, 1⟩ } =
      (FixOutcome.rejected
        { action := "delete", path := "src/lib.rs",
          content := some ⟨0, 0, 0, 0, 1⟩ } RejectReason.cannotDeleteRs,
        [("src/lib.rs", ⟨1, 1, 0, 1, 40⟩)]) := by
  refine ⟨⟨by decide, ?_⟩, ?_, ?_⟩
  · exact (c2_phase_allowlist.1 0 []
      [{ action := "create", path := "Anchor.toml",
         content := some ⟨0, 0, 0, 0, 5⟩ },
       { action := "create", path := "src/lib.rs",
         content := some ⟨1, 1, 0, 1, 40⟩ }]
      { action := "create", path := "Anchor.toml",
        content := some ⟨0, 0, 0, 0, 5⟩ } (by decide)).1
  · exact c2_phase_allowlist.2.1 1 []
      { action := "create", path := "src/lib.rs",
        content := some ⟨1, 1, 0, 1, 40⟩ } ⟨1, 1, 0, 1, 40⟩
      (by decide) (by decide) (by decide) (by decide) (by decide)
  · exact c2_phase_allowlist.2.2.1 1 [("src/lib.rs", ⟨1, 1, 0, 1, 40⟩)]
      { action := "delete", path := "src/lib.rs",
        content := some ⟨0, 0, 0, 0, 1⟩ } ⟨0, 0, 0, 0, 1⟩
      (by decide) (by decide) (by decide) (by decide)

/-- C9: when no readable file exists at the targeted compiled-source
path, the regression guard returns safe with no reason (the construct
and shrink checks are silently skipped), and an update proposal for such
a path passes validation and is applied. -/
theorem c9_missing_file_skips_guard :
    (∀ c : RsContent,
        validateRsFixSafety none c = { safe := true, reason := none }) ∧
    (∀ (it : Nat) (fs : ProjFS) (f : Fix) (c : RsContent),
        1 ≤ it → f.action = "update" → extname f.path = ".rs" →
        f.content = some c → fsLookup fs f.path = none →
        processFix it fs f = (FixOutcome.applied f, fsWrite fs f.path c)) := by
  refine ⟨fun c => rfl, ?_⟩
  intro it fs f c hit hact hext hcont hlook
  have hp : f.path ≠ "" := by
    intro h0
    rw [h0] at hext
    exact absurd hext (by decide)
  have hit0 : it ≠ 0 := by omega
  simp only [processFix, hcont, if_neg hp]
  rw [if_neg (by simp [hit0])]
  rw [if_pos (by simp [hext]; omega)]
  simp [rsChecks, hact, hlook, validateRsFixSafety, hit0]

/-- Witness for C9: an update to a missing rs file is applied unchanged.
-/
theorem c9_missing_file_skips_guard_witness :
    validateRsFixSafety none ⟨0, 0, 0, 0, 1⟩ =
      { safe := true, reason := none } ∧
    processFix 1 []
      { action := "update", path := "programs/x/src/lib.rs",
        content := some ⟨3, 2, 1, 2, 120⟩ } =
      (FixOutcome.applied
        { action := "update", path := "programs/x/src/lib.rs",
          content := some ⟨3, 2, 1, 2, 120⟩ },
        fsWrite [] "programs/x/src/lib.rs" ⟨3, 2, 1, 2, 120⟩) :=
  ⟨c9_missing_file_skips_guard.1 ⟨0, 0, 0, 0, 1⟩,
   c9_missing_file_skips_guard.2 1 []

      { action := "update", path := "programs/x/src/lib.rs",
        content := some ⟨3, 2, 1, 2, 120⟩ } ⟨3, 2, 1, 2, 120⟩
      (by decide) (by decide) (by decide) (by decide) (by decide)⟩

/-! ## Theorems about the sandbox network mode and the secret purge -/

/-- C4 counterexample: with the shipped configuration the build
container's NetworkMode is "default", not "none" — the sandbox executor
does not disable networking. -/
theorem c4_network_counterexample :
    (buildHostConfig configDocker).networkMode = "default" ∧
    (buildHostConfig configDocker).networkMode ≠ "none" ∧
    configDocker.networkDisabled = false := by decide

/-- C4 amended: executeAnchorBuild disables container networking exactly
when config.docker.networkDisabled is true, and the shipped config sets
that flag to false (network enabled for cargo dependencies), so builds
run with network access by default. -/
theorem c4_network_mode_amended :
    (∀ cfg : DockerConfig,
        (buildHostConfig cfg).networkMode = "none" ↔
          cfg.networkDisabled = true) ∧
    configDocker.networkDisabled = false := by
  constructor
  · intro cfg
    cases h : cfg.networkDisabled <;> simp [buildHostConfig, h]
  · rfl

/-- Witness for the amended C4 at the shipped configuration. -/
theorem c4_network_mode_amended_witness :
    ((buildHostConfig configDocker).networkMode = "none" ↔
      configDocker.networkDisabled = true) ∧
    configDocker.networkDisabled = false :=
  ⟨c4_network_mode_amended.1 configDocker, c4_network_mode_amended.2⟩

/-- C5 counterexample: a deploy directory holding exactly one credential
file whose bytes fail to parse gives N = 1 credential files but zero
secret records in the completion payload, and the purge leaves that file
in the output directory. -/
theorem c5_secret_count_counterexample :
    ([({ filename := "bad-keypair.json", parses := false, pubkey := "",
         secret := [] } : DeployFile)].filter
      (fun f => isKeypairFilename f.filename)).length = 1 ∧
    (extractKeypairs (some
      [({ filename := "bad-keypair.json", parses := false, pubkey := "",
          secret := [] } : DeployFile)])).length = 0 ∧
    (buildSuccessTail
      [({ filename := "bad-keypair.json", parses := false, pubkey := "",
          secret := [] } : DeployFile)]).2 =
      [({ filename := "bad-keypair.json", parses := false, pubkey := "",
          secret := [] } : DeployFile)] := by decide

/-- C5 amended: the completion payload embeds exactly one secret record
per credential file that parses (unparseable credential files are
skipped and their backing files are not purged), the purge events come
strictly after the response-send event, and after the purge no file with
a purged record's filename remains in the deploy directory. -/
theorem c5_secret_records_amended (d : List DeployFile) :
    (extractKeypairs (some d)).length
      = (d.filter (fun f => isKeypairFilename f.filename && f.parses)).length ∧
    (buildSuccessTail d).1.head?
      = some (RespEvent.send (extractKeypairs (some d))) ∧
    (∀ e ∈ (buildSuccessTail d).1.tail, ∃ fn, e = RespEvent.unlink fn) ∧
    (∀ r ∈ extractKeypairs (some d), ∀ f ∈ (buildSuccessTail d).2,
        f.filename ≠ r.filename) := by
  refine ⟨by simp [extractKeypairs], rfl, ?_, ?_⟩
  · intro e he
    simp only [buildSuccessTail, List.tail_cons, List.mem_map] at he
    obtain ⟨k, _, hk⟩ := he
    exact ⟨k.filename, hk.symm⟩
  · intro r hr f hf
    simp only [buildSuccessTail, deleteKeypairFiles, List.mem_filter] at hf
    obtain ⟨_, hcond⟩ := hf
    intro heq
    simp only [Bool.not_eq_true', List.any_eq_false] at hcond
    have := hcond r hr
    rw [heq] at this
    simp at this

/-! ## Theorems about the post-check, the loop and the concurrency guard -/

/-- C7: a build attempt with exit code zero is recorded as a success
only when at least one .so artifact exists and the combined log matches
none of the error patterns; when the artifact check fails or the log
matches a pattern, the attempt is recorded as failed regardless of the
zero exit code; and each of the listed pattern families (structured
rustc error codes, an "aborting due to" error line, the
package-metadata failure, the missing-library message) triggers the log
detector. -/
theorem c7_zero_exit_post_check (r : BuildResultJs)
    (listing : Option (List String)) (hz : r.success = true) :
    ((postCheckBuild r listing).success = true ↔
      verifyBuildArtifacts listing = true ∧
      detectBuildErrorsInLogs r.logs = false) ∧
    ((verifyBuildArtifacts listing = false ∨
      detectBuildErrorsInLogs r.logs = true) →
      (postCheckBuild r listing).success = false) ∧
    ((hasRustcErrorCode (combinedLog r.logs) = true ∨
      hasAbortingLine (combinedLog r.logs) = true ∨
      strContains (combinedLog r.logs) pkgMetadataMsg = true ∨
      strContains (combinedLog r.logs) cantFindLibraryMsg = true) →
      detectBuildErrorsInLogs r.logs = true) := by
  refine ⟨?_, ?_, ?_⟩
  · cases hv : verifyBuildArtifacts listing <;>
      cases hd : detectBuildErrorsInLogs r.logs <;>
      simp [postCheckBuild, hz, hv, hd]
  · intro h
    rcases h with h | h <;>
      cases hv : verifyBuildArtifacts listing <;>
      cases hd : detectBuildErrorsInLogs r.logs <;>
      simp_all [postCheckBuild, hz]
  · intro h
    simp only [detectBuildErrorsInLogs]
    rcases h with h | h | h | h <;> simp [h]

/-- Witness for C7 at a zero-exit build whose log carries a structured
rustc error code and whose deploy directory holds a shared object. -/
theorem c7_zero_exit_post_check_witness :
    ((postCheckBuild c7SampleBuild c7SampleListing).success = true ↔
      verifyBuildArtifacts c7SampleListing = true ∧
      detectBuildErrorsInLogs c7SampleBuild.logs = false) ∧
    ((verifyBuildArtifacts c7SampleListing = false ∨
      detectBuildErrorsInLogs c7SampleBuild.logs = true) →
      (postCheckBuild c7SampleBuild c7SampleListing).success = false) ∧
    ((hasRustcErrorCode (combinedLog c7SampleBuild.logs) = true ∨
      hasAbortingLine (combinedLog c7SampleBuild.logs) = true ∨
      strContains (combinedLog c7SampleBuild.logs) pkgMetadataMsg = true ∨
      strContains (combinedLog c7SampleBuild.logs) cantFindLibraryMsg = true) →
      detectBuildErrorsInLogs c7SampleBuild.logs = true) :=
  c7_zero_exit_post_check c7SampleBuild c7SampleListing (by decide)

/-- C6: whenever the loop body runs an iteration i ≥ 1 and the advisor
reports cannot-fix, smartBuild terminates immediately with a failed
cannot-fix result carrying the advisor's extracted reason and an
iteration count of i + 1, and no sandbox run is executed for iteration i
or any later iteration. -/
theorem c6_cannot_fix_terminates (maxIters fuel i : Nat) (orc : Oracles)
    (st : LoopState) (h1 : 1 ≤ i)
    (hadv : (orc.advisor i).success = true)
    (hcf : (orc.advisor i).cannotFix = true)
    (hpast : ∀ j ∈ st.buildsRun, j < i) :
    (smartBuildGo maxIters orc (fuel + 1) i st).success = false ∧
    (smartBuildGo maxIters orc (fuel + 1) i st).iterations = i + 1 ∧
    (smartBuildGo maxIters orc (fuel + 1) i st).cannotFix = true ∧
    (smartBuildGo maxIters orc (fuel + 1) i st).cannotFixReason
      = some (extractCannotFixReason (orc.advisor i).analysis) ∧
    ∀ j ∈ (smartBuildGo maxIters orc (fuel + 1) i st).buildsRun, j < i := by
  have hi0 : ¬(i = 0) := by omega
  simp only [smartBuildGo, hi0, hadv, hcf]
  simp only [Bool.true_eq_false, if_false, if_true, ite_false, ite_true]
  simp
  exact hpast

/-- Witness for C6: the advisor declines at iteration 1 after a failed
iteration-0 build. -/
theorem c6_cannot_fix_terminates_witness :
    (smartBuildGo 8 c6Oracles 8 1 c6State).success = false ∧
    (smartBuildGo 8 c6Oracles 8 1 c6State).iterations = 2 ∧
    (smartBuildGo 8 c6Oracles 8 1 c6State).cannotFix = true ∧
    (smartBuildGo 8 c6Oracles 8 1 c6State).cannotFixReason
      = some (extractCannotFixReason (c6Oracles.advisor 1).analysis) ∧
    ∀ j ∈ (smartBuildGo 8 c6Oracles 8 1 c6State).buildsRun, j < 1 :=
  c6_cannot_fix_terminates 8 7 1 c6Oracles c6State (by decide) (by decide)
    (by decide) (by decide)

/-- C8 counterexample: with two iterations, an exhaustion run (advisor
infrastructure failing every iteration) and an advisor-decline run
whose analysis text equals the exhaustion sentence produce identical
caller-visible results — same success flag, iteration count, cannotFix
flag (true for both), reason string and final build — so the exhaustion
outcome is not reported distinctly from the advisor's explicit
cannot-fix outcome. -/
theorem c8_exhaustion_counterexample :
    ((c8OraclesB.advisor 1).cannotFix = true ∧
     (c8OraclesA.advisor 1).success = false) ∧
    (smartBuild 2 c8OraclesA []).success = (smartBuild 2 c8OraclesB []).success ∧
    (smartBuild 2 c8OraclesA []).iterations
      = (smartBuild 2 c8OraclesB []).iterations ∧
    (smartBuild 2 c8OraclesA []).cannotFix
      = (smartBuild 2 c8OraclesB []).cannotFix ∧
    (smartBuild 2 c8OraclesA []).cannotFixReason
      = (smartBuild 2 c8OraclesB []).cannotFixReason ∧
    (smartBuild 2 c8OraclesA []).finalBuild
      = (smartBuild 2 c8OraclesB []).finalBuild ∧
    (smartBuild 2 c8OraclesA []).cannotFix = true := by decide

theorem exhaustion_helper (maxIters : Nat) (orc : Oracles)
    (hb : ∀ i, (postCheckBuild (orc.build i) (orc.deployListing i)).success
      = false)
    (ha : ∀ i, 1 ≤ i → (orc.advisor i).success = true →
      (orc.advisor i).cannotFix = false) :
    ∀ fuel i st,
      (smartBuildGo maxIters orc fuel i st).success = false ∧
      (smartBuildGo maxIters orc fuel i st).iterations = maxIters ∧
      (smartBuildGo maxIters orc fuel i st).cannotFix = true ∧
      (smartBuildGo maxIters orc fuel i st).cannotFixReason
        = some exhaustedMsg := by
  intro fuel
  induction fuel with
  | zero => intro i st; exact ⟨rfl, rfl, rfl, rfl⟩
  | succ fuel ih =>
    intro i st
    simp only [smartBuildGo]
    split
    · split
      · rename_i hsucc
        rw [hb i] at hsucc
        exact absurd hsucc (by decide)
      · exact ih (i + 1) _
    · rename_i hi
      split
      · exact ih (i + 1) _
      · rename_i hs
        have hs' : (orc.advisor i).success = true := by
          cases h : (orc.advisor i).success
          · exact absurd h hs
          · rfl
        have hcf : (orc.advisor i).cannotFix = false :=
          ha i (by omega) hs'
        split
        · rename_i hcf'
          rw [hcf] at hcf'
          exact absurd hcf' (by decide)
        · split
          · split
            · rename_i hsucc
              rw [hb i] at hsucc
              exact absurd hsucc (by decide)
            · exact ih (i + 1) _
          · split
            · rename_i hsucc
              rw [hb i] at hsucc
              exact absurd hsucc (by decide)
            · exact ih (i + 1) _

/-- C8 amended: when every sandbox attempt fails its post-check and the
advisor never declines, the job exhausts all MAX_ITERATIONS iterations
and terminates with a failed result whose iteration count is
MAX_ITERATIONS and whose reason is the fixed exhaustion sentence; but
that result carries the same cannotFix = true flag an explicit advisor
decline produces, so the two outcomes are distinguished only by the
reason text (which a decline can replicate). -/
theorem c8_exhaustion_amended (maxIters : Nat) (orc : Oracles)
    (fs0 : ProjFS)
    (hb : ∀ i, (postCheckBuild (orc.build i) (orc.deployListing i)).success
      = false)
    (ha : ∀ i, 1 ≤ i → (orc.advisor i).success = true →
      (orc.advisor i).cannotFix = false) :
    (smartBuild maxIters orc fs0).success = false ∧
    (smartBuild maxIters orc fs0).iterations = maxIters ∧
    (smartBuild maxIters orc fs0).cannotFix = true ∧
    (smartBuild maxIters orc fs0).cannotFixReason = some exhaustedMsg :=
  exhaustion_helper maxIters orc hb ha maxIters 0
    { fs := fs0, phases := [], prevFixes := [], lastBuild := none,
      buildsRun := [] }

/-- Witness for the amended C8 at the concrete always-failing oracles. -/
theorem c8_exhaustion_amended_witness :
    (smartBuild 2 c8OraclesA []).success = false ∧
    (smartBuild 2 c8OraclesA []).iterations = 2 ∧
    (smartBuild 2 c8OraclesA []).cannotFix = true ∧
    (smartBuild 2 c8OraclesA []).cannotFixReason = some exhaustedMsg :=
  c8_exhaustion_amended 2 c8OraclesA []
    (fun _ => rfl) (fun _ _ h2 => nomatch h2)

theorem atomicInv_foldl (sched : List ReqId) :
    ∀ s : GuardState, AtomicInv s →
      AtomicInv (List.foldl (guardStep handlerStepAtomic) s sched) := by
  induction sched with
  | nil => intro s hs; exact hs
  | cons r rest ih =>
    intro s hs
    simp only [List.foldl_cons]
    apply ih
    revert hs
    revert r
    revert s
    decide

/-- C1: the admit of the one-shot build route is not atomic — the
schedule check-A, check-B, insert-A, insert-B leaves both requests of
one agent running a build at the same instant, with the second request
admitted instead of refused; under the specification's atomic
check-and-insert admit, no schedule ever reaches a state with two
running builds for the principal. -/
theorem c1_concurrent_admit_race :
    bothRunning (runSchedule handlerStep
      [ReqId.reqA, ReqId.reqB, ReqId.reqA, ReqId.reqB]) ∧
    (∀ sched : List ReqId,
      ¬ bothRunning (runSchedule handlerStepAtomic sched)) := by
  constructor
  · decide
  · intro sched
    have h := atomicInv_foldl sched
      { locked := false, a := ReqPhase.start, b := ReqPhase.start }
      (by decide)
    exact h.2.2

/-- Witness for the amended C5 at a deploy directory holding one
parsable and one unparseable credential file. -/
theorem c5_secret_records_amended_witness :
    (extractKeypairs (some
      [({ filename := "prog-keypair.json", parses := true, pubkey := "PK",
          secret := [1, 2] } : DeployFile),
       { filename := "bad-keypair.json", parses := false, pubkey := "",
         secret := [] }])).length
      = ([({ filename := "prog-keypair.json", parses := true, pubkey := "PK",
             secret := [1, 2] } : DeployFile),
          { filename := "bad-keypair.json", parses := false, pubkey := "",
            secret := [] }].filter
          (fun f => isKeypairFilename f.filename && f.parses)).length ∧
    (buildSuccessTail
      [({ filename := "prog-keypair.json", parses := true, pubkey := "PK",
          secret := [1, 2] } : DeployFile),
       { filename := "bad-keypair.json", parses := false, pubkey := "",
         secret := [] }]).1.head?
      = some (RespEvent.send (extractKeypairs (some
          [({ filename := "prog-keypair.json", parses := true, pubkey := "PK",
              secret := [1, 2] } : DeployFile),
           { filename := "bad-keypair.json", parses := false, pubkey := "",
             secret := [] }]))) ∧
    (∀ e ∈ (buildSuccessTail
        [({ filename := "prog-keypair.json", parses := true, pubkey := "PK",
            secret := [1, 2] } : DeployFile),
         { filename := "bad-keypair.json", parses := false, pubkey := "",
           secret := [] }]).1.tail, ∃ fn, e = RespEvent.unlink fn) ∧
    (∀ r ∈ extractKeypairs (some
        [({ filename := "prog-keypair.json", parses := true, pubkey := "PK",
            secret := [1, 2] } : DeployFile),
         { filename := "bad-keypair.json", parses := false, pubkey := "",
           secret := [] }]),
      ∀ f ∈ (buildSuccessTail
        [({ filename := "prog-keypair.json", parses := true, pubkey := "PK",
            secret := [1, 2] } : DeployFile),
         { filename := "bad-keypair.json", parses := false, pubkey := "",
           secret := [] }]).2, f.filename ≠ r.filename) :=
  c5_secret_records_amended
    [({ filename := "prog-keypair.json", parses := true, pubkey := "PK",
        secret := [1, 2] } : DeployFile),
     { filename := "bad-keypair.json", parses := false, pubkey := "",
       secret := [] }]

end OpenCompiler
